import Mathlib

/-!
Verification development for the EchoSafe personal-safety recorder.

The definitions below are a shallow embedding of the TypeScript source:
the rolling audio ring buffer and incident store (App component), the
live duplex session message handler (LiveTacticalMonitor component), the
PCM and base64 conversion utilities (audioUtils), and the batch analysis
client (geminiService).  Timestamps are modelled as integers
(milliseconds, as produced by Date.now), byte blocks as lists of
naturals, audio-context clock values as rationals, and JS strings as
lists of characters.
-/

namespace EchoSafe

/-! ## Data model (types.ts and App constants) -/

/-- BUFFER_DURATION_MS = 30 * 60 * 1000 : the 30-minute rolling window. -/
def BUFFER_DURATION_MS : ℤ := 30 * 60 * 1000

/-- CHUNK_DURATION_MS = 1000 : one-second recorder slices. -/
def CHUNK_DURATION_MS : ℕ := 1000

/-- AudioChunk from types.ts: one recorded slice with its Date.now timestamp.
The Blob payload is modelled as a list of bytes. -/
structure AudioChunk where
  data : List ℕ
  timestamp : ℤ
  deriving DecidableEq, Repr

/-- threatLevel values of IncidentAnalysis in types.ts. -/
inductive ThreatLevel where
  | low
  | medium
  | high
  | critical
  deriving DecidableEq, Repr

/-- IncidentAnalysis from types.ts: the seven-field structured analysis. -/
structure IncidentAnalysis where
  summary : List Char
  sentiment : List Char
  threatLevel : ThreatLevel
  keyEvents : List (List Char)
  recommendations : List (List Char)
  currentSituation : List Char
  predictedNextMoves : List (List Char)
  deriving DecidableEq, Repr

/-- SavedIncident from types.ts.  The blob holds the concatenated audio
bytes; analysis is the optional attached result. -/
structure SavedIncident where
  id : List Char
  timestamp : ℤ
  durationSeconds : ℕ
  blob : List ℕ
  analysis : Option IncidentAnalysis
  deriving DecidableEq, Repr

/-! ## Ring buffer operations (App.tsx) -/

/-- The head-scanning prune loop in recorder.ondataavailable:
while the first chunk is older than the cutoff, shift it off. -/
def pruneBuffer (chunks : List AudioChunk) (cutoff : ℤ) : List AudioChunk :=
  match chunks with
  | [] => []
  | c :: rest => if c.timestamp < cutoff then pruneBuffer rest cutoff else c :: rest

/-- recorder.ondataavailable: append the new chunk at the tail, then prune
chunks older than now - BUFFER_DURATION_MS from the head. -/
def ondataavailable (chunks : List AudioChunk) (data : List ℕ) (now : ℤ) : List AudioChunk :=
  pruneBuffer (chunks ++ [{ data := data, timestamp := now }]) (now - BUFFER_DURATION_MS)

/-- The buffer-size interval effect: filter to chunks with
now - timestamp < BUFFER_DURATION_MS (replacing the buffer when anything
was pruned) and report floor(length * CHUNK_DURATION_MS / 1000) seconds.
Returns the pruned buffer together with the reported size. -/
def bufferTick (chunks : List AudioChunk) (now : ℤ) : List AudioChunk × ℕ :=
  let validChunks := chunks.filter (fun c => now - c.timestamp < BUFFER_DURATION_MS)
  (validChunks, validChunks.length * CHUNK_DURATION_MS / 1000)

/-- saveIncident from App.tsx.  Returns none on an empty buffer; otherwise
filters the chunks with timestamp >= now - minutes*60*1000, returns none if
none qualify, and otherwise builds the incident whose blob is the
byte-concatenation of the qualifying chunks in buffer order.  The
crypto.randomUUID call is modelled by the caller-supplied newId. -/
def saveIncident (chunks : List AudioChunk) (now : ℤ) (minutes : ℕ) (newId : List Char) :
    Option SavedIncident :=
  if chunks = [] then none
  else
    let cutoff := now - (minutes : ℤ) * 60 * 1000
    let relevantChunks := (chunks.filter (fun c => cutoff ≤ c.timestamp)).map (fun c => c.data)
    if relevantChunks = [] then none
    else
      some { id := newId
             timestamp := now
             durationSeconds := relevantChunks.length
             blob := relevantChunks.flatten
             analysis := none }

/-- The setIncidents update in saveIncident: a new incident is prepended to
the list exactly when saveIncident returns one; otherwise the list is
untouched. -/
def saveIncidentApp (incidents : List SavedIncident) (chunks : List AudioChunk) (now : ℤ)
    (minutes : ℕ) (newId : List Char) : List SavedIncident × Option SavedIncident :=
  match saveIncident chunks now minutes newId with
  | none => (incidents, none)
  | some inc => (inc :: incidents, some inc)

/-- The setIncidents update in handleAnalyze: map over the incident list,
replacing the analysis field of the incident whose id matches. -/
def attachAnalysis (incidents : List SavedIncident) (targetId : List Char)
    (result : IncidentAnalysis) : List SavedIncident :=
  incidents.map (fun inc => if inc.id = targetId then { inc with analysis := some result } else inc)

/-- handleDelete from App.tsx: remove the incident with the given id. -/
def deleteIncident (incidents : List SavedIncident) (targetId : List Char) : List SavedIncident :=
  incidents.filter (fun inc => inc.id ≠ targetId)

/-! ## PCM conversion utilities (audioUtils.ts)

Sample values are modelled as rationals.  Each relevant JS float
operation here (clamping with Math.max/Math.min, and scaling a float32
value by 0x8000 or 0x7FFF, whose products have at most 39 significant
bits) is exact in double precision, so rational arithmetic is a faithful
model of the computation on all finite inputs. -/

/-- Truncation toward zero, the first step of the JS ToInt16 conversion
applied on assignment into an Int16Array. -/
def truncTowardZero (q : ℚ) : ℤ :=
  if q < 0 then ⌈q⌉ else ⌊q⌋

/-- The JS ToInt16 conversion: truncate toward zero, wrap modulo 2^16,
and reinterpret as a signed 16-bit value. -/
def toInt16 (q : ℚ) : ℤ :=
  if 32768 ≤ truncTowardZero q % 65536 then truncTowardZero q % 65536 - 65536
  else truncTowardZero q % 65536

/-- One iteration of the float32ToInt16PCM loop:
s = Math.max(-1, Math.min(1, x)); int16[i] = s < 0 ? s * 0x8000 : s * 0x7FFF. -/
def sampleToInt16 (x : ℚ) : ℤ :=
  toInt16 (if max (-1) (min 1 x) < 0 then max (-1) (min 1 x) * 32768
           else max (-1) (min 1 x) * 32767)

/-- float32ToInt16PCM from audioUtils.ts: elementwise conversion of the
input samples, preserving length. -/
def float32ToInt16PCM (float32Data : List ℚ) : List ℤ :=
  float32Data.map sampleToInt16

/-- pcmToAudioBuffer from audioUtils.ts, reduced to the datum the
scheduler uses: the buffer frame count is byteLength / 2 (mono 16-bit),
and its duration is frameCount / sampleRate seconds. -/
def pcmBufferDuration (pcmData : List ℕ) (sampleRate : ℕ) : ℚ :=
  ((pcmData.length / 2 : ℕ) : ℚ) / (sampleRate : ℚ)

/-! ## Base64 conversion (audioUtils.ts wrappers over the platform
btoa/atob pair)

The platform functions implement standard base64 over latin1 strings:
btoa encodes code units 0..255 into the 64-character alphabet with '='
padding, and atob (forgiving-base64) drops up to two trailing '='
characters and decodes sextet groups.  JS strings are modelled as lists
of characters on the encoded side and lists of code units (naturals) on
the binary side; String.fromCharCode and charCodeAt are mutually inverse
identities on code units and are elided. -/

/-- The base64 alphabet, index 0..63. -/
def b64Alphabet : List Char :=
  "ABCDEFGHIJKLMNOPQRSTUVWXYZabcdefghijklmnopqrstuvwxyz0123456789+/".toList

/-- Encode a sextet value as its alphabet character. -/
def encB64 (n : ℕ) : Char :=
  b64Alphabet.getD n 'A'

/-- Decode an alphabet character back to its sextet value. -/
def decB64 (c : Char) : Option ℕ :=
  let i := b64Alphabet.indexOf c
  if i < 64 then some i else none

/-- btoa grouping: three bytes become four sextet characters; a final
group of one or two bytes is padded with '='. -/
def btoaChunks : List ℕ → List Char
  | [] => []
  | [b1] => [encB64 (b1 / 4), encB64 (b1 % 4 * 16), '=', '=']
  | [b1, b2] => [encB64 (b1 / 4), encB64 (b1 % 4 * 16 + b2 / 16), encB64 (b2 % 16 * 4), '=']
  | b1 :: b2 :: b3 :: rest =>
      encB64 (b1 / 4) :: encB64 (b1 % 4 * 16 + b2 / 16) ::
        encB64 (b2 % 16 * 4 + b3 / 64) :: encB64 (b3 % 64) :: btoaChunks rest

/-- Platform btoa: defined on strings whose code units are all latin1
(≤ 255); raises (here: none) otherwise. -/
def btoa (units : List ℕ) : Option (List Char) :=
  if units.all (fun u => u ≤ 255) then some (btoaChunks units) else none

/-- Drop one trailing '=' padding character, when present. -/
def dropPad1 (cs : List Char) : List Char :=
  if cs.getLast? = some '=' then cs.dropLast else cs

/-- Drop up to two trailing '=' padding characters (forgiving-base64). -/
def stripPad (cs : List Char) : List Char :=
  dropPad1 (dropPad1 cs)

/-- Decode every character through the alphabet; fail on any character
outside it. -/
def decChars : List Char → Option (List ℕ)
  | [] => some []
  | c :: rest =>
      match decB64 c, decChars rest with
      | some s, some t => some (s :: t)
      | _, _ => none

/-- Recombine sextets into bytes: full groups of four sextets yield three
bytes; a final group of two or three sextets yields one or two bytes; a
leftover single sextet is invalid. -/
def combineSextets : List ℕ → Option (List ℕ)
  | [] => some []
  | [_] => none
  | [s1, s2] => some [s1 * 4 + s2 / 16]
  | [s1, s2, s3] => some [s1 * 4 + s2 / 16, s2 % 16 * 16 + s3 / 4]
  | s1 :: s2 :: s3 :: s4 :: rest =>
      (combineSextets rest).map
        (fun t => (s1 * 4 + s2 / 16) :: (s2 % 16 * 16 + s3 / 4) :: (s3 % 4 * 64 + s4) :: t)

/-- Platform atob: strip padding, decode characters, recombine sextets. -/
def atob (cs : List Char) : Option (List ℕ) :=
  (decChars (stripPad cs)).bind combineSextets

/-- uint8ArrayToBase64 from audioUtils.ts: build the binary string from
the byte values via String.fromCharCode (the identity on code units) and
apply btoa. -/
def uint8ArrayToBase64 (bytes : List ℕ) : Option (List Char) :=
  btoa bytes

/-- base64ToUint8Array from audioUtils.ts: apply atob and read the code
units back via charCodeAt (the identity on code units). -/
def base64ToUint8Array (base64 : List Char) : Option (List ℕ) :=
  atob base64

/-! ## Live duplex session (LiveTacticalMonitor.tsx)

The onmessage callback mutates three pieces of state: the playback
cursor nextStartTimeRef, the scheduled-source list audioSourcesRef, and
the transcription string.  AudioContext clock values are rationals.  A
scheduled source is recorded with its start time and buffer duration.
The asynchronous onended removal of finished sources is real-time
behaviour outside the message handler and is not part of this model. -/

/-- One scheduled output clip: its start time and duration in seconds. -/
structure ScheduledClip where
  start : ℚ
  duration : ℚ
  deriving DecidableEq, Repr

/-- The mutable live-session state touched by onmessage. -/
structure LiveState where
  nextStartTime : ℚ
  audioSources : List ScheduledClip
  transcription : List Char
  deriving DecidableEq, Repr

/-- One inbound LiveServerMessage, reduced to the fields onmessage reads:
serverContent.interrupted, the inlineData audio payload (decoded to
bytes; absent or empty is falsy and skips the branch), the
outputTranscription text, and turnComplete. -/
structure ServerMessage where
  interrupted : Bool
  audioData : Option (List ℕ)
  outputText : Option (List Char)
  turnComplete : Bool
  deriving DecidableEq, Repr

/-- The interruption marker appended to the transcript. -/
def interruptMarker : List Char := "\n[INTERRUPTED]\n> ".toList

/-- The separator appended on turnComplete. -/
def turnSeparator : List Char := "\n\n> ".toList

/-- The transcription update: newText = prev + text, truncated to
"..." plus the trailing 2000 characters when longer than 2000. -/
def appendCapped (prev text : List Char) : List Char :=
  let newText := prev ++ text
  if 2000 < newText.length then "...".toList ++ newText.drop (newText.length - 2000)
  else newText

/-- Duration of a synthesized clip as computed by pcmToAudioBuffer at the
24000 Hz output rate. -/
def clipDuration (pcm : List ℕ) : ℚ :=
  pcmBufferDuration pcm 24000

/-- The onmessage callback.  An interruption message stops and clears all
scheduled sources, zeroes the cursor, and appends the marker, returning
early.  Otherwise an audio payload is scheduled at the cursor, first
reset to the current time when it has fallen behind, and the cursor
advances by the clip duration; a transcription fragment is appended with
the cap; turnComplete appends the separator. -/
def onmessage (st : LiveState) (currentTime : ℚ) (msg : ServerMessage) : LiveState :=
  if msg.interrupted then
    { nextStartTime := 0
      audioSources := []
      transcription := st.transcription ++ interruptMarker }
  else
    let st1 :=
      match msg.audioData with
      | none => st
      | some pcm =>
          let start := if st.nextStartTime < currentTime then currentTime else st.nextStartTime
          { st with
              audioSources := st.audioSources ++ [{ start := start, duration := clipDuration pcm }]
              nextStartTime := start + clipDuration pcm }
    let st2 :=
      match msg.outputText with
      | none => st1
      | some text => { st1 with transcription := appendCapped st1.transcription text }
    if msg.turnComplete then { st2 with transcription := st2.transcription ++ turnSeparator }
    else st2

/-! ## Batch analysis client (geminiService.ts)

analyzeIncident throws when the API key is missing, propagates service
errors as-is, throws when response.text is absent or empty, and
otherwise returns JSON.parse(text) cast — without validation — to
IncidentAnalysis.  The platform JSON.parse is modelled by a
recursive-descent parser over a JSON value type (strings without escape
sequences and integer numerals; the shapes exercised here). -/

/-- A parsed JSON value. -/
inductive Json where
  | null
  | bool (b : Bool)
  | num (n : ℤ)
  | str (s : List Char)
  | arr (elems : List Json)
  | obj (fields : List (List Char × Json))

/-- Skip JSON whitespace. -/
def skipWs : List Char → List Char
  | [] => []
  | c :: rest =>
      if c = ' ' ∨ c = '\n' ∨ c = '\t' ∨ c = '\r' then skipWs rest else c :: rest

/-- Read a string body up to the closing quote (no escape sequences). -/
def parseStringBody : List Char → Option (List Char × List Char)
  | [] => none
  | c :: rest =>
      if c = '"' then some ([], rest)
      else if c = '\\' then none
      else (parseStringBody rest).map (fun p => (c :: p.1, p.2))

/-- Take a run of decimal digits. -/
def parseDigits : List Char → List Char × List Char
  | [] => ([], [])
  | c :: rest =>
      if c.isDigit then
        let p := parseDigits rest
        (c :: p.1, p.2)
      else ([], c :: rest)

/-- Digit run to a natural number. -/
def digitsToNat (ds : List Char) : ℕ :=
  ds.foldl (fun a c => a * 10 + (c.toNat - 48)) 0

/-- Parse an unsigned integer numeral. -/
def parseNatNumeral (cs : List Char) : Option (ℕ × List Char) :=
  let p := parseDigits cs
  if p.1 = [] then none else some (digitsToNat p.1, p.2)

/-- Parse an optionally signed integer numeral. -/
def parseIntNumeral (cs : List Char) : Option (ℤ × List Char) :=
  match cs with
  | '-' :: rest => (parseNatNumeral rest).map (fun p => (-(p.1 : ℤ), p.2))
  | _ => (parseNatNumeral cs).map (fun p => ((p.1 : ℤ), p.2))

mutual

/-- Parse one JSON value; fuel bounds the recursion depth. -/
def parseJsonValue : ℕ → List Char → Option (Json × List Char)
  | 0, _ => none
  | fuel + 1, cs =>
      match skipWs cs with
      | [] => none
      | '"' :: rest => (parseStringBody rest).map (fun p => (Json.str p.1, p.2))
      | '{' :: rest =>
          (match skipWs rest with
           | '}' :: r2 => some (Json.obj [], r2)
           | r2 => (parseMembers fuel r2).map (fun p => (Json.obj p.1, p.2)))
      | '[' :: rest =>
          (match skipWs rest with
           | ']' :: r2 => some (Json.arr [], r2)
           | r2 => (parseElems fuel r2).map (fun p => (Json.arr p.1, p.2)))
      | 't' :: 'r' :: 'u' :: 'e' :: rest => some (Json.bool true, rest)
      | 'f' :: 'a' :: 'l' :: 's' :: 'e' :: rest => some (Json.bool false, rest)
      | 'n' :: 'u' :: 'l' :: 'l' :: rest => some (Json.null, rest)
      | c :: rest => (parseIntNumeral (c :: rest)).map (fun p => (Json.num p.1, p.2))

/-- Parse the members of a nonempty JSON object, after the opening brace. -/
def parseMembers : ℕ → List Char → Option (List (List Char × Json) × List Char)
  | 0, _ => none
  | fuel + 1, cs =>
      match skipWs cs with
      | '"' :: rest =>
          match parseStringBody rest with
          | none => none
          | some (key, r1) =>
              match skipWs r1 with
              | ':' :: r2 =>
                  (match parseJsonValue fuel r2 with
                   | none => none
                   | some (v, r3) =>
                       match skipWs r3 with
                       | ',' :: r4 =>
                           (parseMembers fuel r4).map (fun p => ((key, v) :: p.1, p.2))
                       | '}' :: r4 => some ([(key, v)], r4)
                       | _ => none)
              | _ => none
      | _ => none

/-- Parse the elements of a nonempty JSON array, after the opening
bracket. -/
def parseElems : ℕ → List Char → Option (List Json × List Char)
  | 0, _ => none
  | fuel + 1, cs =>
      match parseJsonValue fuel cs with
      | none => none
      | some (v, r1) =>
          match skipWs r1 with
          | ',' :: r2 => (parseElems fuel r2).map (fun p => (v :: p.1, p.2))
          | ']' :: r2 => some ([v], r2)
          | _ => none

end

/-- Platform JSON.parse: parse one value and require only whitespace to
remain. -/
def jsonParse (text : List Char) : Option Json :=
  match parseJsonValue (text.length + 1) text with
  | some (j, rest) => if skipWs rest = [] then some j else none
  | none => none

/-- The generateContent response, reduced to the field the client reads:
response.text (absent when the service returned no content). -/
structure GenResponse where
  text : Option (List Char)
  deriving DecidableEq, Repr

/-- The failure modes of analyzeIncident: missing API key, a propagated
service/network error, no response text, or a JSON.parse failure. -/
inductive AnalysisFailure where
  | missingKey
  | service (detail : List Char)
  | noText
  | parseFailure
  deriving DecidableEq, Repr

/-- analyzeIncident from geminiService.ts.  The service call is passed in
as its outcome (an error detail or a response).  A missing key throws
before the call; a service error is caught and rethrown as-is; absent or
empty response text throws; otherwise the parsed JSON value is returned
directly — JSON.parse followed by an unchecked cast, with no
required-field validation. -/
def analyzeIncident (apiKey : List Char) (call : Except (List Char) GenResponse) :
    Except AnalysisFailure Json :=
  if apiKey = [] then Except.error AnalysisFailure.missingKey
  else
    match call with
    | Except.error e => Except.error (AnalysisFailure.service e)
    | Except.ok response =>
        match response.text with
        | none => Except.error AnalysisFailure.noText
        | some text =>
            if text = [] then Except.error AnalysisFailure.noText
            else
              match jsonParse text with
              | none => Except.error AnalysisFailure.parseFailure
              | some j => Except.ok j

/-- Modelled from the spec: the seven required fields of the
structured-analysis schema ("summary", "sentiment", "threatLevel",
"keyEvents", "currentSituation", "predictedNextMoves",
"recommendations").  A value conforms only when it is an object carrying
all seven keys.  This is the spec-side shape predicate, for comparison
with what analyzeIncident actually checks. -/
def specRequiredFieldsPresent (j : Json) : Bool :=
  match j with
  | Json.obj fields =>
      let keys := fields.map (fun f => f.1)
      ["summary".toList, "sentiment".toList, "threatLevel".toList, "keyEvents".toList,
        "currentSituation".toList, "predictedNextMoves".toList,
        "recommendations".toList].all (fun k => keys.contains k)
  | _ => false

/-! ## Helper lemmas -/

theorem pruneBuffer_mem_ge : ∀ (chunks : List AudioChunk) (cutoff : ℤ),
    chunks.Pairwise (fun a b => a.timestamp ≤ b.timestamp) →
    ∀ c ∈ pruneBuffer chunks cutoff, cutoff ≤ c.timestamp
  | [], _, _ => by intro c hc; simp [pruneBuffer] at hc
  | c :: rest, cutoff, h => by
      rw [List.pairwise_cons] at h
      intro x hx
      by_cases hlt : c.timestamp < cutoff
      · rw [pruneBuffer, if_pos hlt] at hx
        exact pruneBuffer_mem_ge rest cutoff h.2 x hx
      · rw [pruneBuffer, if_neg hlt] at hx
        rcases List.mem_cons.mp hx with hx | hx
        · subst hx; omega
        · have := h.1 x hx
          omega

theorem pruneBuffer_idem : ∀ (chunks : List AudioChunk) (cutoff : ℤ),
    pruneBuffer (pruneBuffer chunks cutoff) cutoff = pruneBuffer chunks cutoff
  | [], _ => rfl
  | c :: rest, cutoff => by
      by_cases hlt : c.timestamp < cutoff
      · rw [pruneBuffer, if_pos hlt]
        exact pruneBuffer_idem rest cutoff
      · rw [pruneBuffer, if_neg hlt, pruneBuffer, if_neg hlt]

/-! ## Claim theorems -/

/-- Claim C3: on a buffer with non-decreasing timestamps, after the
head-scanning prune at time now no remaining fragment is older than
now minus the 30-minute window, and pruning a second time at the same
now removes nothing. -/
theorem prune_window_and_idempotent (chunks : List AudioChunk) (now : ℤ)
    (hsorted : chunks.Pairwise (fun a b => a.timestamp ≤ b.timestamp)) :
    (∀ c ∈ pruneBuffer chunks (now - BUFFER_DURATION_MS),
        ¬(c.timestamp < now - BUFFER_DURATION_MS)) ∧
    pruneBuffer (pruneBuffer chunks (now - BUFFER_DURATION_MS)) (now - BUFFER_DURATION_MS) =
      pruneBuffer chunks (now - BUFFER_DURATION_MS) ∧
    (∀ c ∈ (bufferTick chunks now).1, ¬(c.timestamp < now - BUFFER_DURATION_MS)) ∧
    (bufferTick (bufferTick chunks now).1 now).1 = (bufferTick chunks now).1 := by
  refine ⟨fun c hc => ?_, pruneBuffer_idem chunks (now - BUFFER_DURATION_MS), fun c hc => ?_, ?_⟩
  · have := pruneBuffer_mem_ge chunks (now - BUFFER_DURATION_MS) hsorted c hc
    omega
  · have := List.of_mem_filter hc
    simp only [decide_eq_true_eq] at this
    omega
  · show ((chunks.filter _).filter _) = chunks.filter _
    rw [List.filter_filter]
    simp

/-- Witness for C3 at a concrete buffer: one stale and one fresh chunk. -/
theorem prune_window_and_idempotent_witness :
    (([{ data := [1], timestamp := 0 },
      { data := [2], timestamp := 1900000 }] : List AudioChunk).Pairwise
        (fun a b => a.timestamp ≤ b.timestamp)) ∧
    ((∀ c ∈ pruneBuffer [{ data := [1], timestamp := 0 },
        { data := [2], timestamp := 1900000 }] (2000000 - BUFFER_DURATION_MS),
        ¬(c.timestamp < 2000000 - BUFFER_DURATION_MS)) ∧
      pruneBuffer (pruneBuffer [{ data := [1], timestamp := 0 },
          { data := [2], timestamp := 1900000 }] (2000000 - BUFFER_DURATION_MS))
          (2000000 - BUFFER_DURATION_MS) =
        pruneBuffer [{ data := [1], timestamp := 0 },
          { data := [2], timestamp := 1900000 }] (2000000 - BUFFER_DURATION_MS) ∧
      (∀ c ∈ (bufferTick [{ data := [1], timestamp := 0 },
          { data := [2], timestamp := 1900000 }] 2000000).1,
          ¬(c.timestamp < 2000000 - BUFFER_DURATION_MS)) ∧
      (bufferTick (bufferTick [{ data := [1], timestamp := 0 },
          { data := [2], timestamp := 1900000 }] 2000000).1 2000000).1 =
        (bufferTick [{ data := [1], timestamp := 0 },
          { data := [2], timestamp := 1900000 }] 2000000).1) :=
  ⟨by decide,
   prune_window_and_idempotent
     [{ data := [1], timestamp := 0 }, { data := [2], timestamp := 1900000 }] 2000000
     (by decide)⟩

/-- Claim C6: attaching an analysis maps every incident elementwise,
overwriting the analysis field exactly of those whose id matches and
leaving all others untouched; an absent id makes it a no-op; attaching
twice keeps only the second result. -/
theorem attachAnalysis_correct (incidents : List SavedIncident) (targetId : List Char)
    (result r1 r2 : IncidentAnalysis) :
    (∀ i : ℕ, (attachAnalysis incidents targetId result)[i]? =
        (incidents[i]?).map (fun inc =>
          if inc.id = targetId then { inc with analysis := some result } else inc)) ∧
    (attachAnalysis incidents targetId result).length = incidents.length ∧
    (targetId ∉ incidents.map (fun inc => inc.id) →
        attachAnalysis incidents targetId result = incidents) ∧
    attachAnalysis (attachAnalysis incidents targetId r1) targetId r2 =
      attachAnalysis incidents targetId r2 := by
  refine ⟨fun i => ?_, ?_, fun habs => ?_, ?_⟩
  · simp [attachAnalysis]
  · simp [attachAnalysis]
  · have : ∀ inc ∈ incidents, inc.id ≠ targetId := by
      intro inc hinc heq
      exact habs (heq ▸ List.mem_map_of_mem (fun x => x.id) hinc)
    calc attachAnalysis incidents targetId result
        = incidents.map id := by
          apply List.map_congr_left
          intro inc hinc
          simp [this inc hinc]
      _ = incidents := List.map_id incidents
  · simp only [attachAnalysis, List.map_map]
    apply List.map_congr_left
    intro inc _
    by_cases h : inc.id = targetId <;> simp [h]

/-- Sample incidents and analyses for concrete witnesses. -/
def sampleIncidents : List SavedIncident :=
  [{ id := ['a'], timestamp := 0, durationSeconds := 1, blob := [1], analysis := none },
   { id := ['b'], timestamp := 1, durationSeconds := 1, blob := [2], analysis := none }]

def sampleAnalysis1 : IncidentAnalysis :=
  { summary := ['x'], sentiment := [], threatLevel := ThreatLevel.high, keyEvents := [],
    recommendations := [], currentSituation := [], predictedNextMoves := [] }

def sampleAnalysis2 : IncidentAnalysis :=
  { summary := [], sentiment := [], threatLevel := ThreatLevel.low, keyEvents := [],
    recommendations := [], currentSituation := [], predictedNextMoves := [] }

/-- Witness for C6: attaching to an absent id is a no-op on a concrete
list, and attaching twice to a present id keeps only the second result. -/
theorem attachAnalysis_correct_witness :
    attachAnalysis sampleIncidents ['z'] sampleAnalysis2 = sampleIncidents ∧
    attachAnalysis (attachAnalysis sampleIncidents ['a'] sampleAnalysis1) ['a'] sampleAnalysis2 =
      attachAnalysis sampleIncidents ['a'] sampleAnalysis2 :=
  ⟨(attachAnalysis_correct sampleIncidents ['z'] sampleAnalysis2 sampleAnalysis1
      sampleAnalysis2).2.2.1 (by decide),
   (attachAnalysis_correct sampleIncidents ['a'] sampleAnalysis2 sampleAnalysis1
      sampleAnalysis2).2.2.2⟩

/-- Claim C1: a retroactive save at time now with window minutes stores,
at the head of the incident list, an incident whose audio is the
concatenation of exactly the chunks with timestamp ≥ now - window, in
buffer order, which on a time-ordered buffer is time order; when no
chunk qualifies (an empty or fully-stale buffer included) it returns
none and the incident list is unchanged. -/
theorem saveIncident_window_correct (incidents : List SavedIncident) (chunks : List AudioChunk)
    (now : ℤ) (minutes : ℕ) (newId : List Char)
    (hsorted : chunks.Pairwise (fun a b => a.timestamp ≤ b.timestamp)) :
    (chunks.filter (fun c => now - (minutes : ℤ) * 60 * 1000 ≤ c.timestamp) = [] →
        saveIncidentApp incidents chunks now minutes newId = (incidents, none)) ∧
    (chunks.filter (fun c => now - (minutes : ℤ) * 60 * 1000 ≤ c.timestamp) ≠ [] →
        saveIncidentApp incidents chunks now minutes newId =
          ({ id := newId, timestamp := now,
             durationSeconds :=
               (chunks.filter (fun c => now - (minutes : ℤ) * 60 * 1000 ≤ c.timestamp)).length,
             blob := ((chunks.filter
                 (fun c => now - (minutes : ℤ) * 60 * 1000 ≤ c.timestamp)).map
                   (fun c => c.data)).flatten,
             analysis := none } :: incidents,
           some { id := newId, timestamp := now,
                  durationSeconds :=
                    (chunks.filter
                      (fun c => now - (minutes : ℤ) * 60 * 1000 ≤ c.timestamp)).length,
                  blob := ((chunks.filter
                      (fun c => now - (minutes : ℤ) * 60 * 1000 ≤ c.timestamp)).map
                        (fun c => c.data)).flatten,
                  analysis := none })) ∧
    ((chunks.filter (fun c => now - (minutes : ℤ) * 60 * 1000 ≤ c.timestamp)).map
        (fun c => c.timestamp)).Pairwise (fun a b => a ≤ b) := by
  refine ⟨fun hempty => ?_, fun hne => ?_, ?_⟩
  · by_cases hnil : chunks = []
    · simp [saveIncidentApp, saveIncident, hnil]
    · have hrel : (chunks.filter
          (fun c => now - (minutes : ℤ) * 60 * 1000 ≤ c.timestamp)).map (fun c => c.data) = [] := by
        rw [hempty]; rfl
      simp only [saveIncidentApp, saveIncident, if_neg hnil]
      rw [if_pos hrel]
  · have hnil : chunks ≠ [] := by
      intro h; exact hne (by simp [h])
    have hrel : (chunks.filter
        (fun c => now - (minutes : ℤ) * 60 * 1000 ≤ c.timestamp)).map (fun c => c.data) ≠ [] := by
      simpa using hne
    simp only [saveIncidentApp, saveIncident, if_neg hnil, if_neg hrel, List.length_map]
  · rw [List.pairwise_map]
    exact List.Pairwise.filter _ hsorted

/-- Witness for C1: a two-chunk buffer where only the newer chunk falls
inside a one-minute window. -/
theorem saveIncident_window_correct_witness :
    (([{ data := [1], timestamp := 0 }, { data := [2], timestamp := 1900000 }] :
        List AudioChunk).Pairwise (fun a b => a.timestamp ≤ b.timestamp)) ∧
    (([{ data := [1], timestamp := 0 },
        { data := [2], timestamp := 1900000 }] : List AudioChunk).filter
          (fun c => (1930000 : ℤ) - ((1 : ℕ) : ℤ) * 60 * 1000 ≤ c.timestamp) ≠ [] →
      saveIncidentApp [] [{ data := [1], timestamp := 0 }, { data := [2], timestamp := 1900000 }]
          1930000 1 ['u'] =
        ({ id := ['u'], timestamp := 1930000,
           durationSeconds :=
             (([{ data := [1], timestamp := 0 },
                 { data := [2], timestamp := 1900000 }] : List AudioChunk).filter
                   (fun c => (1930000 : ℤ) - ((1 : ℕ) : ℤ) * 60 * 1000 ≤ c.timestamp)).length,
           blob := ((([{ data := [1], timestamp := 0 },
               { data := [2], timestamp := 1900000 }] : List AudioChunk).filter
                 (fun c => (1930000 : ℤ) - ((1 : ℕ) : ℤ) * 60 * 1000 ≤ c.timestamp)).map
                   (fun c => c.data)).flatten,
           analysis := none } :: [],
         some { id := ['u'], timestamp := 1930000,
                durationSeconds :=
                  (([{ data := [1], timestamp := 0 },
                      { data := [2], timestamp := 1900000 }] : List AudioChunk).filter
                        (fun c => (1930000 : ℤ) - ((1 : ℕ) : ℤ) * 60 * 1000 ≤ c.timestamp)).length,
                blob := ((([{ data := [1], timestamp := 0 },
                    { data := [2], timestamp := 1900000 }] : List AudioChunk).filter
                      (fun c => (1930000 : ℤ) - ((1 : ℕ) : ℤ) * 60 * 1000 ≤ c.timestamp)).map
                        (fun c => c.data)).flatten,
                analysis := none })) :=
  ⟨by decide,
   (saveIncident_window_correct []
      [{ data := [1], timestamp := 0 }, { data := [2], timestamp := 1900000 }]
      1930000 1 ['u'] (by decide)).2.1⟩

/-- The C7 scenario buffer: one chunk per second for 40 minutes, the most
recent captured half a second before the observation time 2400000; chunk
j carries the byte j as payload and timestamp 500 + 1000 j. -/
def scenarioChunks : List AudioChunk :=
  (List.range 2400).map (fun j => { data := [j], timestamp := 500 + 1000 * (j : ℤ) })

set_option maxRecDepth 100000 in
/-- Claim C7: on the forty-minute scenario buffer the size readout
reports 1800 seconds (the 30-minute cap), and save(5) produces an
incident of 300 seconds whose audio is the concatenation, in order, of
exactly the last 300 chunks. -/
theorem scenario_sizeSeconds_and_save :
    (bufferTick scenarioChunks 2400000).2 = 1800 ∧
    (scenarioChunks.drop 2100).length = 300 ∧
    saveIncident (bufferTick scenarioChunks 2400000).1 2400000 5 ['u'] =
      some { id := ['u'], timestamp := 2400000, durationSeconds := 300,
             blob := ((scenarioChunks.drop 2100).map (fun c => c.data)).flatten,
             analysis := none } := by
  refine ⟨by decide, by decide, by decide⟩

/-- The scheduling invariant of the live session: every scheduled clip
has nonnegative duration and ends no later than the cursor. -/
def SchedInv (st : LiveState) : Prop :=
  ∀ c ∈ st.audioSources, 0 ≤ c.duration ∧ c.start + c.duration ≤ st.nextStartTime

theorem clipDuration_nonneg (pcm : List ℕ) : 0 ≤ clipDuration pcm := by
  unfold clipDuration pcmBufferDuration
  positivity

theorem onmessage_audio_step (st : LiveState) (currentTime : ℚ) (msg : ServerMessage)
    (pcm : List ℕ) (hint : msg.interrupted = false) (haud : msg.audioData = some pcm) :
    (onmessage st currentTime msg).audioSources =
      st.audioSources ++
        [{ start := max currentTime st.nextStartTime, duration := clipDuration pcm }] ∧
    (onmessage st currentTime msg).nextStartTime =
      max currentTime st.nextStartTime + clipDuration pcm := by
  have hstart : (if st.nextStartTime < currentTime then currentTime else st.nextStartTime) =
      max currentTime st.nextStartTime := by
    rcases lt_or_le st.nextStartTime currentTime with h | h
    · rw [if_pos h, max_eq_left h.le]
    · rw [if_neg (not_lt.mpr h), max_eq_right h]
  constructor
  · simp only [onmessage, hint, haud, Bool.false_eq_true, if_false, hstart]
    cases htext : msg.outputText <;> cases hturn : msg.turnComplete <;> simp [htext, hturn]
  · simp only [onmessage, hint, haud, Bool.false_eq_true, if_false, hstart]
    cases htext : msg.outputText <;> cases hturn : msg.turnComplete <;> simp [htext, hturn]

/-- Claim C4: an inbound synthesized-audio payload is scheduled to start
at max(currentTime, cursor) — never in the past, and never overlapping
any already-scheduled clip — the cursor advances by exactly the clip's
duration, the scheduling invariant is preserved, and when the cursor has
not fallen behind the clock the new clip starts exactly at the previous
cursor (gapless playback). -/
theorem onmessage_schedules_gapless (st : LiveState) (currentTime : ℚ) (msg : ServerMessage)
    (pcm : List ℕ) (hint : msg.interrupted = false) (haud : msg.audioData = some pcm)
    (hinv : SchedInv st) :
    (onmessage st currentTime msg).audioSources =
      st.audioSources ++
        [{ start := max currentTime st.nextStartTime, duration := clipDuration pcm }] ∧
    (onmessage st currentTime msg).nextStartTime =
      max currentTime st.nextStartTime + clipDuration pcm ∧
    currentTime ≤ max currentTime st.nextStartTime ∧
    (∀ c ∈ st.audioSources, c.start + c.duration ≤ max currentTime st.nextStartTime) ∧
    (currentTime ≤ st.nextStartTime → max currentTime st.nextStartTime = st.nextStartTime) ∧
    SchedInv (onmessage st currentTime msg) := by
  have hsrc := (onmessage_audio_step st currentTime msg pcm hint haud).1
  have hcur := (onmessage_audio_step st currentTime msg pcm hint haud).2
  have hold : ∀ c ∈ st.audioSources, c.start + c.duration ≤ max currentTime st.nextStartTime :=
    fun c hc => le_trans (hinv c hc).2 (le_max_right _ _)
  refine ⟨hsrc, hcur, le_max_left _ _, hold, fun h => max_eq_right h, ?_⟩
  intro c hc
  rw [hsrc] at hc
  rw [hcur]
  rcases List.mem_append.mp hc with hc | hc
  · exact ⟨(hinv c hc).1,
      le_trans (hold c hc) (le_add_of_nonneg_right (clipDuration_nonneg pcm))⟩
  · rcases List.mem_singleton.mp hc with rfl
    exact ⟨clipDuration_nonneg pcm, le_refl _⟩

/-- Sample live-session states and messages for concrete witnesses. -/
def sampleAudioMsg : ServerMessage :=
  { interrupted := false, audioData := some [0, 0], outputText := none, turnComplete := false }

def sampleInterruptMsg : ServerMessage :=
  { interrupted := true, audioData := none, outputText := none, turnComplete := false }

def samplePending : LiveState :=
  { nextStartTime := 2, audioSources := [{ start := 1, duration := 1 }], transcription := [] }

def sampleBehind : LiveState :=
  { nextStartTime := 5, audioSources := [{ start := 1, duration := 2 }], transcription := [] }

/-- Witness for C4: schedule a two-byte clip while one clip is pending
and the clock is behind the cursor. -/
theorem onmessage_schedules_gapless_witness :
    sampleAudioMsg.interrupted = false ∧ SchedInv samplePending ∧
    ((onmessage samplePending 1 sampleAudioMsg).audioSources =
        samplePending.audioSources ++
          [{ start := max 1 samplePending.nextStartTime, duration := clipDuration [0, 0] }] ∧
      (onmessage samplePending 1 sampleAudioMsg).nextStartTime =
        max 1 samplePending.nextStartTime + clipDuration [0, 0] ∧
      (1 : ℚ) ≤ max 1 samplePending.nextStartTime ∧
      (∀ c ∈ samplePending.audioSources,
          c.start + c.duration ≤ max 1 samplePending.nextStartTime) ∧
      ((1 : ℚ) ≤ samplePending.nextStartTime →
        max 1 samplePending.nextStartTime = samplePending.nextStartTime) ∧
      SchedInv (onmessage samplePending 1 sampleAudioMsg)) :=
  ⟨rfl, fun c hc => by simp [samplePending] at hc; subst hc; exact ⟨by norm_num, by simp [samplePending]; norm_num⟩,
   onmessage_schedules_gapless samplePending 1 sampleAudioMsg [0, 0] rfl rfl
     (fun c hc => by simp [samplePending] at hc; subst hc; exact ⟨by norm_num, by simp [samplePending]; norm_num⟩)⟩

/-- Claim C5 counterexample: on an interruption at playback time 3 the
code sets the cursor to 0, not to the interruption time — the claim's
"cursor is reset to now" fails as stated. -/
theorem interrupt_cursor_counterexample :
    (onmessage sampleBehind 3 sampleInterruptMsg).nextStartTime = 0 ∧
    ¬((onmessage sampleBehind 3 sampleInterruptMsg).nextStartTime = 3) := by
  refine ⟨rfl, by decide⟩

/-- Claim C5 (amended): an interruption empties the scheduled-audio set,
resets the cursor to zero (not to the interruption time), and appends the
interruption marker; because clips are scheduled at max(clock, cursor),
the next clip scheduled afterwards, at any clock value no earlier than
the (nonnegative) interruption time, starts exactly at that clock value
and hence no earlier than the interruption. -/
theorem interrupt_clears_schedule (st : LiveState) (tInt : ℚ) (msg : ServerMessage)
    (hint : msg.interrupted = true) (htInt : 0 ≤ tInt) :
    (onmessage st tInt msg).audioSources = [] ∧
    (onmessage st tInt msg).nextStartTime = 0 ∧
    (onmessage st tInt msg).transcription = st.transcription ++ interruptMarker ∧
    (∀ (t2 : ℚ) (msg2 : ServerMessage) (pcm : List ℕ),
        msg2.interrupted = false → msg2.audioData = some pcm → tInt ≤ t2 →
        (onmessage (onmessage st tInt msg) t2 msg2).audioSources =
          [{ start := t2, duration := clipDuration pcm }] ∧ tInt ≤ t2) := by
  have hstep : onmessage st tInt msg =
      { nextStartTime := 0, audioSources := [],
        transcription := st.transcription ++ interruptMarker } := by
    simp [onmessage, hint]
  refine ⟨by rw [hstep], by rw [hstep], by rw [hstep], ?_⟩
  intro t2 msg2 pcm hint2 haud2 ht2
  refine ⟨?_, ht2⟩
  have h2 := (onmessage_audio_step (onmessage st tInt msg) t2 msg2 pcm hint2 haud2).1
  rw [h2, hstep]
  have hmax : max t2 (0 : ℚ) = t2 := max_eq_left (le_trans htInt ht2)
  simp [hmax]

/-- Witness for C5 (amended): interrupt at time 2, with the universally
quantified follow-up scheduling clause instantiated later than 2. -/
theorem interrupt_clears_schedule_witness :
    sampleInterruptMsg.interrupted = true ∧ (0 : ℚ) ≤ 2 ∧
    ((onmessage sampleBehind 2 sampleInterruptMsg).audioSources = [] ∧
      (onmessage sampleBehind 2 sampleInterruptMsg).nextStartTime = 0 ∧
      (onmessage sampleBehind 2 sampleInterruptMsg).transcription =
        sampleBehind.transcription ++ interruptMarker ∧
      (∀ (t2 : ℚ) (msg2 : ServerMessage) (pcm : List ℕ),
          msg2.interrupted = false → msg2.audioData = some pcm → 2 ≤ t2 →
          (onmessage (onmessage sampleBehind 2 sampleInterruptMsg) t2 msg2).audioSources =
            [{ start := t2, duration := clipDuration pcm }] ∧ (2 : ℚ) ≤ t2)) :=
  ⟨rfl, by norm_num, interrupt_clears_schedule sampleBehind 2 sampleInterruptMsg rfl (by norm_num)⟩

theorem interrupt_fold_length : ∀ (n : ℕ) (st : LiveState),
    ((List.replicate n sampleInterruptMsg).foldl (fun st msg => onmessage st 0 msg)
        st).transcription.length = st.transcription.length + 17 * n
  | 0, st => by simp
  | n + 1, st => by
      rw [List.replicate_succ, List.foldl_cons, interrupt_fold_length n]
      have hstep : onmessage st 0 sampleInterruptMsg =
          { nextStartTime := 0, audioSources := [],
            transcription := st.transcription ++ interruptMarker } := by
        simp [onmessage, sampleInterruptMsg]
      rw [hstep]
      have hm : interruptMarker.length = 17 := by decide
      simp only [List.length_append, hm]
      ring

/-- Claim C8 counterexample: a stream of 125 interruption messages,
which carry no transcript fragment, grows the transcript to 2125
characters — past both the 2000-character cap and the 2003-character
truncated form — because the interruption and turn-completion appends
bypass the cap entirely.  The transcript is not bounded over all event
sequences. -/
theorem transcript_unbounded_counterexample :
    ((List.replicate 125 sampleInterruptMsg).foldl (fun st msg => onmessage st 0 msg)
        { nextStartTime := 0, audioSources := [], transcription := [] }).transcription.length =
      2125 ∧ 2003 < 2125 := by
  refine ⟨?_, by norm_num⟩
  rw [interrupt_fold_length 125 { nextStartTime := 0, audioSources := [], transcription := [] }]
  norm_num

/-- Claim C8 (amended): the length cap is enforced only on transcript
fragments: processing a transcript-fragment message leaves the buffer at
appendCapped of the previous buffer, whose length never exceeds 2003
(three dots plus the trailing 2000 characters of the accumulated text
whenever 2000 is exceeded); interruption markers and turn-completion
separators are appended without any cap. -/
theorem transcript_capped_on_fragments (st : LiveState) (currentTime : ℚ)
    (msg : ServerMessage) (text : List Char) (hint : msg.interrupted = false)
    (htext : msg.outputText = some text) (hturn : msg.turnComplete = false) :
    (onmessage st currentTime msg).transcription = appendCapped st.transcription text ∧
    (appendCapped st.transcription text).length ≤ 2003 ∧
    (2000 < (st.transcription ++ text).length →
        appendCapped st.transcription text =
          "...".toList ++
            (st.transcription ++ text).drop ((st.transcription ++ text).length - 2000)) ∧
    (∀ (st' : LiveState) (t' : ℚ) (msg' : ServerMessage), msg'.interrupted = true →
        (onmessage st' t' msg').transcription = st'.transcription ++ interruptMarker) := by
  refine ⟨?_, ?_, fun hover => ?_, fun st' t' msg' hint' => ?_⟩
  · simp only [onmessage, hint, Bool.false_eq_true, if_false, htext, hturn]
    cases haud : msg.audioData <;> simp [haud]
  · unfold appendCapped
    by_cases hover : 2000 < (st.transcription ++ text).length
    · rw [if_pos hover]
      simp only [List.length_append, List.length_drop]
      have : ("...".toList).length = 3 := by decide
      simp only [this]
      omega
    · rw [if_neg hover]
      omega
  · unfold appendCapped
    rw [if_pos hover]
  · simp [onmessage, hint']

/-- A full 2000-character transcript state and a ten-character fragment
message, for the C8 witness. -/
def sampleFullState : LiveState :=
  { nextStartTime := 0, audioSources := [], transcription := List.replicate 2000 'a' }

def sampleFragmentMsg : ServerMessage :=
  { interrupted := false, audioData := none, outputText := some (List.replicate 10 'x'),
    turnComplete := false }

/-- Witness for C8 (amended): a fragment that pushes a 2000-character
buffer past the cap. -/
theorem transcript_capped_on_fragments_witness :
    sampleFragmentMsg.interrupted = false ∧
    sampleFragmentMsg.outputText = some (List.replicate 10 'x') ∧
    sampleFragmentMsg.turnComplete = false ∧
    ((onmessage sampleFullState 0 sampleFragmentMsg).transcription =
        appendCapped sampleFullState.transcription (List.replicate 10 'x') ∧
      (appendCapped sampleFullState.transcription (List.replicate 10 'x')).length ≤ 2003 ∧
      (2000 < (sampleFullState.transcription ++ List.replicate 10 'x').length →
          appendCapped sampleFullState.transcription (List.replicate 10 'x') =
            "...".toList ++
              (sampleFullState.transcription ++ List.replicate 10 'x').drop
                ((sampleFullState.transcription ++ List.replicate 10 'x').length - 2000)) ∧
      (∀ (st' : LiveState) (t' : ℚ) (msg' : ServerMessage), msg'.interrupted = true →
          (onmessage st' t' msg').transcription = st'.transcription ++ interruptMarker)) :=
  ⟨rfl, rfl, rfl,
   transcript_capped_on_fragments sampleFullState 0 sampleFragmentMsg
     (List.replicate 10 'x') rfl rfl rfl⟩

/-- Claim C2 counterexample: a service response whose text is the valid
JSON object with no fields at all — missing every one of the seven
required fields — is returned as a success by analyzeIncident, not
rejected: JSON.parse is followed by an unchecked cast, so a missing
required field does not fail loudly. -/
theorem analyzeIncident_no_validation_counterexample :
    analyzeIncident "key".toList (Except.ok { text := some "{}".toList }) =
      Except.ok (Json.obj []) ∧
    specRequiredFieldsPresent (Json.obj []) = false :=
  ⟨rfl, rfl⟩

/-- Claim C2 (amended): analyzeIncident fails exactly when the API key is
missing, the service call itself fails (propagated as-is with its
detail), the response carries no or empty text, or the text is not
parseable JSON; any parseable JSON value — shape-checked or not — is
returned as a success, with no required-field validation. -/
theorem analyzeIncident_failure_modes :
    (∀ call, analyzeIncident [] call = Except.error AnalysisFailure.missingKey) ∧
    (∀ (apiKey e : List Char), apiKey ≠ [] →
        analyzeIncident apiKey (Except.error e) =
          Except.error (AnalysisFailure.service e)) ∧
    (∀ apiKey : List Char, apiKey ≠ [] →
        analyzeIncident apiKey (Except.ok { text := none }) =
          Except.error AnalysisFailure.noText) ∧
    (∀ apiKey : List Char, apiKey ≠ [] →
        analyzeIncident apiKey (Except.ok { text := some [] }) =
          Except.error AnalysisFailure.noText) ∧
    (∀ (apiKey text : List Char), apiKey ≠ [] → text ≠ [] → jsonParse text = none →
        analyzeIncident apiKey (Except.ok { text := some text }) =
          Except.error AnalysisFailure.parseFailure) ∧
    (∀ (apiKey text : List Char) (j : Json), apiKey ≠ [] → text ≠ [] →
        jsonParse text = some j →
        analyzeIncident apiKey (Except.ok { text := some text }) = Except.ok j) := by
  refine ⟨fun call => ?_, fun apiKey e hk => ?_, fun apiKey hk => ?_, fun apiKey hk => ?_,
    fun apiKey text hk ht hp => ?_, fun apiKey text j hk ht hp => ?_⟩
  · simp [analyzeIncident]
  · simp [analyzeIncident, hk]
  · simp [analyzeIncident, hk]
  · simp [analyzeIncident, hk]
  · simp [analyzeIncident, hk, ht, hp]
  · simp [analyzeIncident, hk, ht, hp]

/-- Witness for C2 (amended): a propagated service error and a parse
failure on non-JSON text, at concrete inputs. -/
theorem analyzeIncident_failure_modes_witness :
    analyzeIncident "key".toList (Except.error "boom".toList) =
      Except.error (AnalysisFailure.service "boom".toList) ∧
    analyzeIncident "key".toList (Except.ok { text := some "not json".toList }) =
      Except.error AnalysisFailure.parseFailure :=
  ⟨analyzeIncident_failure_modes.2.1 "key".toList "boom".toList (by decide),
   analyzeIncident_failure_modes.2.2.2.2.1 "key".toList "not json".toList (by decide)
     (by decide) (by rfl)⟩

theorem toInt16_of_bounds (q : ℚ) (h1 : (-32768 : ℤ) ≤ truncTowardZero q)
    (h2 : truncTowardZero q ≤ 32767) : toInt16 q = truncTowardZero q := by
  unfold toInt16
  split <;> omega

theorem truncTowardZero_intCast (n : ℤ) : truncTowardZero (n : ℚ) = n := by
  unfold truncTowardZero
  split <;> simp

theorem toInt16_intCast (n : ℤ) (h1 : -32768 ≤ n) (h2 : n ≤ 32767) : toInt16 (n : ℚ) = n := by
  rw [toInt16_of_bounds] <;> rw [truncTowardZero_intCast] <;> omega

theorem sampleToInt16_bounds (x : ℚ) :
    -32768 ≤ sampleToInt16 x ∧ sampleToInt16 x ≤ 32767 := by
  have hs1 : (-1 : ℚ) ≤ max (-1) (min 1 x) := le_max_left _ _
  have hs2 : max (-1 : ℚ) (min 1 x) ≤ 1 := max_le (by norm_num) (min_le_left 1 x)
  unfold sampleToInt16
  by_cases hneg : max (-1 : ℚ) (min 1 x) < 0
  · rw [if_pos hneg]
    have hq1 : (-32768 : ℚ) ≤ max (-1) (min 1 x) * 32768 := by nlinarith
    have hq2 : max (-1 : ℚ) (min 1 x) * 32768 ≤ 0 := by nlinarith
    have htr : truncTowardZero (max (-1 : ℚ) (min 1 x) * 32768) =
        ⌈max (-1 : ℚ) (min 1 x) * 32768⌉ := by
      unfold truncTowardZero
      by_cases hz : max (-1 : ℚ) (min 1 x) * 32768 < 0
      · rw [if_pos hz]
      · rw [if_neg hz]
        have : max (-1 : ℚ) (min 1 x) * 32768 = 0 := le_antisymm hq2 (not_lt.mp hz)
        rw [this]
        simp
    have hc1 : (-32768 : ℤ) ≤ ⌈max (-1 : ℚ) (min 1 x) * 32768⌉ := by
      have := Int.ceil_le_ceil hq1
      simpa using this
    have hc2 : ⌈max (-1 : ℚ) (min 1 x) * 32768⌉ ≤ 0 := by
      rw [Int.ceil_le]
      exact_mod_cast hq2
    rw [toInt16_of_bounds _ (htr ▸ hc1) (htr ▸ le_trans hc2 (by norm_num)), htr]
    omega
  · rw [if_neg hneg]
    have hs0 : (0 : ℚ) ≤ max (-1) (min 1 x) := not_lt.mp hneg
    have hq1 : (0 : ℚ) ≤ max (-1) (min 1 x) * 32767 := by nlinarith
    have hq2 : max (-1 : ℚ) (min 1 x) * 32767 ≤ 32767 := by nlinarith
    have htr : truncTowardZero (max (-1 : ℚ) (min 1 x) * 32767) =
        ⌊max (-1 : ℚ) (min 1 x) * 32767⌋ := by
      unfold truncTowardZero
      rw [if_neg (not_lt.mpr hq1)]
    have hf1 : (0 : ℤ) ≤ ⌊max (-1 : ℚ) (min 1 x) * 32767⌋ := by
      rw [Int.le_floor]
      exact_mod_cast hq1
    have hf2 : ⌊max (-1 : ℚ) (min 1 x) * 32767⌋ ≤ 32767 := by
      have := Int.floor_le_floor hq2
      simpa using this
    rw [toInt16_of_bounds _ (htr ▸ le_trans (by norm_num) hf1) (htr ▸ hf2), htr]
    omega

/-- Claim C10: float32ToInt16PCM maps the input elementwise (hence
preserves length), every output sample lies in the signed 16-bit range,
and clamping sends every sample at most -1 to -32768 and every sample at
least 1 to 32767. -/
theorem float32ToInt16PCM_range (xs : List ℚ) :
    float32ToInt16PCM xs = xs.map sampleToInt16 ∧
    (float32ToInt16PCM xs).length = xs.length ∧
    (∀ y ∈ float32ToInt16PCM xs, -32768 ≤ y ∧ y ≤ 32767) ∧
    (∀ x : ℚ, x ≤ -1 → sampleToInt16 x = -32768) ∧
    (∀ x : ℚ, 1 ≤ x → sampleToInt16 x = 32767) := by
  refine ⟨rfl, List.length_map xs sampleToInt16, fun y hy => ?_, fun x hx => ?_, fun x hx => ?_⟩
  · rcases List.mem_map.mp hy with ⟨x, _, rfl⟩
    exact sampleToInt16_bounds x
  · have hcl : max (-1 : ℚ) (min 1 x) = -1 := by
      rw [min_eq_right (le_trans hx (by norm_num)), max_eq_left hx]
    unfold sampleToInt16
    rw [hcl, if_pos (by norm_num : (-1 : ℚ) < 0),
      (by norm_num : (-1 : ℚ) * 32768 = ((-32768 : ℤ) : ℚ)), toInt16_intCast] <;> norm_num
  · have hcl : max (-1 : ℚ) (min 1 x) = 1 := by
      rw [min_eq_left hx]
      exact max_eq_right (by norm_num)
    unfold sampleToInt16
    rw [hcl, if_neg (by norm_num : ¬((1 : ℚ) < 0)),
      (by norm_num : (1 : ℚ) * 32767 = ((32767 : ℤ) : ℚ)), toInt16_intCast] <;> norm_num

/-- Witness for C10: concrete samples below, inside, and above the
clamping range. -/
theorem float32ToInt16PCM_range_witness :
    float32ToInt16PCM [-2, 1/2, 3] = ([-2, 1/2, 3] : List ℚ).map sampleToInt16 ∧
    sampleToInt16 (-2) = -32768 ∧ sampleToInt16 3 = 32767 :=
  ⟨(float32ToInt16PCM_range [-2, 1/2, 3]).1,
   (float32ToInt16PCM_range []).2.2.2.1 (-2) (by norm_num),
   (float32ToInt16PCM_range []).2.2.2.2 3 (by norm_num)⟩

/-- The sextet stream of the base64 encoding, before the alphabet map
and padding: three bytes yield four sextets; a final partial group
yields two or three. -/
def toSextets : List ℕ → List ℕ
  | [] => []
  | [b1] => [b1 / 4, b1 % 4 * 16]
  | [b1, b2] => [b1 / 4, b1 % 4 * 16 + b2 / 16, b2 % 16 * 4]
  | b1 :: b2 :: b3 :: rest =>
      (b1 / 4) :: (b1 % 4 * 16 + b2 / 16) :: (b2 % 16 * 4 + b3 / 64) :: (b3 % 64) ::
        toSextets rest

theorem decB64_encB64 : ∀ s : ℕ, s < 64 → decB64 (encB64 s) = some s := by decide

theorem encB64_ne_pad (s : ℕ) : encB64 s ≠ '=' := by
  by_cases h : s < 64
  · exact (by decide : ∀ t, t < 64 → encB64 t ≠ '=') s h
  · unfold encB64
    rw [List.getD_eq_default]
    · decide
    · have hlen : b64Alphabet.length = 64 := by decide
      omega

theorem decChars_map_encB64 : ∀ (ss : List ℕ), (∀ s ∈ ss, s < 64) →
    decChars (ss.map encB64) = some ss
  | [], _ => rfl
  | s :: rest, h => by
      have hs : s < 64 := h s (by simp)
      have ih := decChars_map_encB64 rest (fun x hx => h x (by simp [hx]))
      simp only [List.map_cons, decChars, decB64_encB64 s hs, ih]

theorem toSextets_lt : ∀ (bs : List ℕ), (∀ b ∈ bs, b ≤ 255) → ∀ s ∈ toSextets bs, s < 64
  | [], _ => by intro s hs; simp [toSextets] at hs
  | [b1], h => by
      intro s hs
      have hb1 : b1 ≤ 255 := h b1 (by simp)
      simp [toSextets] at hs
      rcases hs with hs | hs <;> omega
  | [b1, b2], h => by
      intro s hs
      have hb1 : b1 ≤ 255 := h b1 (by simp)
      have hb2 : b2 ≤ 255 := h b2 (by simp)
      simp [toSextets] at hs
      rcases hs with hs | hs | hs <;> omega
  | b1 :: b2 :: b3 :: rest, h => by
      intro s hs
      have hb1 : b1 ≤ 255 := h b1 (by simp)
      have hb2 : b2 ≤ 255 := h b2 (by simp)
      have hb3 : b3 ≤ 255 := h b3 (by simp)
      have ih := toSextets_lt rest (fun x hx => h x (by simp [hx]))
      simp only [toSextets, List.mem_cons] at hs
      rcases hs with hs | hs | hs | hs | hs
      · omega
      · omega
      · omega
      · omega
      · exact ih s hs

theorem combineSextets_toSextets : ∀ (bs : List ℕ), (∀ b ∈ bs, b ≤ 255) →
    combineSextets (toSextets bs) = some bs
  | [], _ => rfl
  | [b1], _ => by
      simp only [toSextets, combineSextets, Option.some.injEq, List.cons.injEq, and_true]
      omega
  | [b1, b2], h => by
      have hb2 : b2 ≤ 255 := h b2 (by simp)
      simp only [toSextets, combineSextets, Option.some.injEq, List.cons.injEq, and_true]
      constructor <;> omega
  | b1 :: b2 :: b3 :: rest, h => by
      have hb2 : b2 ≤ 255 := h b2 (by simp)
      have hb3 : b3 ≤ 255 := h b3 (by simp)
      have ih := combineSextets_toSextets rest (fun x hx => h x (by simp [hx]))
      simp only [toSextets, combineSextets, ih, Option.map_some', Option.some.injEq,
        List.cons.injEq, and_true]
      omega

theorem btoaChunks_length : ∀ (bs : List ℕ), bs ≠ [] → 4 ≤ (btoaChunks bs).length
  | [], h => absurd rfl h
  | [b1], _ => by simp [btoaChunks]
  | [b1, b2], _ => by simp [btoaChunks]
  | b1 :: b2 :: b3 :: rest, _ => by simp [btoaChunks]

theorem dropPad1_append (xs ys : List Char) (h : ys ≠ []) :
    dropPad1 (xs ++ ys) = xs ++ dropPad1 ys := by
  unfold dropPad1
  rw [List.getLast?_append_of_ne_nil xs h]
  by_cases hl : ys.getLast? = some '='
  · rw [if_pos hl, if_pos hl, List.dropLast_append_of_ne_nil xs h]
  · rw [if_neg hl, if_neg hl]

theorem stripPad_append (xs ys : List Char) (h : 2 ≤ ys.length) :
    stripPad (xs ++ ys) = xs ++ stripPad ys := by
  have h1 : ys ≠ [] := by
    intro e
    subst e
    simp at h
  have h2 : dropPad1 ys ≠ [] := by
    have : 1 ≤ (dropPad1 ys).length := by
      unfold dropPad1
      split
      · rw [List.length_dropLast]
        omega
      · omega
    exact List.ne_nil_of_length_pos (by omega)
  unfold stripPad
  rw [dropPad1_append xs ys h1, dropPad1_append xs (dropPad1 ys) h2]

theorem stripPad_btoaChunks : ∀ (bs : List ℕ),
    stripPad (btoaChunks bs) = (toSextets bs).map encB64
  | [] => rfl
  | [b1] => by
      simp only [btoaChunks, toSextets, List.map_cons, List.map_nil]
      unfold stripPad dropPad1
      simp [List.getLast?]
  | [b1, b2] => by
      simp only [btoaChunks, toSextets, List.map_cons, List.map_nil]
      unfold stripPad dropPad1
      simp [List.getLast?, encB64_ne_pad]
  | b1 :: b2 :: b3 :: rest => by
      by_cases hr : rest = []
      · subst hr
        simp only [btoaChunks, toSextets, List.map_cons, List.map_nil]
        unfold stripPad dropPad1
        simp [List.getLast?, encB64_ne_pad]
      · have ih := stripPad_btoaChunks rest
        have hlen := btoaChunks_length rest hr
        have hsplit : btoaChunks (b1 :: b2 :: b3 :: rest) =
            [encB64 (b1 / 4), encB64 (b1 % 4 * 16 + b2 / 16), encB64 (b2 % 16 * 4 + b3 / 64),
              encB64 (b3 % 64)] ++ btoaChunks rest := rfl
        rw [hsplit, stripPad_append _ _ (by omega), ih]
        simp [toSextets]

/-- Claim C9: decoding the encoding of any byte array recovers it
exactly — base64ToUint8Array (atob) is a left inverse of
uint8ArrayToBase64 (btoa) on byte values. -/
theorem base64_roundtrip (bytes : List ℕ) (h : ∀ b ∈ bytes, b ≤ 255) :
    (uint8ArrayToBase64 bytes).bind base64ToUint8Array = some bytes := by
  unfold uint8ArrayToBase64 btoa
  rw [if_pos (by simp only [List.all_eq_true, decide_eq_true_eq]; exact h)]
  show atob (btoaChunks bytes) = some bytes
  unfold atob
  rw [stripPad_btoaChunks, decChars_map_encB64 _ (toSextets_lt bytes h)]
  show combineSextets (toSextets bytes) = some bytes
  exact combineSextets_toSextets bytes h

/-- Witness for C9: round trip a two-byte array, exercising the padded
final group. -/
theorem base64_roundtrip_witness :
    (∀ b ∈ [77, 97], b ≤ 255) ∧
    (uint8ArrayToBase64 [77, 97]).bind base64ToUint8Array = some [77, 97] :=
  ⟨by decide, base64_roundtrip [77, 97] (by decide)⟩

end EchoSafe
